import Mathlib

/-!
Verification development for the kiso-testing core: shallow embeddings of
the DUT auxiliary's command/acknowledgement protocol
(`pykiso/lib/auxiliaries/dut_auxiliary.py`), the CAN auxiliary's signal
cache (`pykiso/lib/auxiliaries/can_auxiliary.py`), the step-report
serializer (`pykiso/test_result/serialize_step_report.py`), and the UDS
server auxiliary's STmin/padding/callback-table operations (modelled from
the specification - the server's source is not in the tree, only its
tests).  Theorems settle the frozen claims C1..C10.
-/

namespace Kiso

/-! ## Message codec (modelled from the spec)

The message module itself is not in the tree; the spec describes a fixed
header with type (COMMAND | REPORT | ACK), subtype (TEST | ABORT | PING,
or ACK/NACK for acknowledgements), suite id, case id and a matching
token, and the matching rule "an ACK message is considered matching a
request iff type/subtype/suite id/case id/token all correspond to the
request". -/

/-- Modelled from the spec: message header type field (COMMAND | REPORT | ACK). -/
inductive MessageType where
  | command
  | report
  | ack
  deriving DecidableEq, Repr

/-- Modelled from the spec: message header subtype field
(e.g. TEST | ABORT | PING for commands, ACK | NACK for acknowledgements). -/
inductive MessageSubType where
  | ping
  | test
  | abort
  | ackAck
  | ackNack
  deriving DecidableEq, Repr

/-- Modelled from the spec: fixed message header - type, subtype, suite id,
case id, matching token (error code and payload are irrelevant to the
claims and omitted). -/
structure DutMessage where
  msgType : MessageType
  subType : MessageSubType
  testSuite : Nat
  testCase : Nat
  token : Nat
  deriving DecidableEq, Repr

/-- Modelled from the spec: the codec's acknowledgement-matching rule -
a candidate response matches a request iff it is an ACK whose suite id,
case id and token correspond to the request's. -/
def checkIfAckMessageIsMatching (req resp : DutMessage) : Bool :=
  resp.msgType = MessageType.ack && resp.subType = MessageSubType.ackAck
    && resp.testSuite = req.testSuite && resp.testCase = req.testCase
    && resp.token = req.token

/-- Modelled from the spec: `generate_ack_message` builds the ACK
acknowledgement corresponding to a received message (same suite id,
case id and token, type ACK, subtype the given acknowledgement kind). -/
def generateAckMessage (m : DutMessage) (ackType : MessageSubType) : DutMessage :=
  { msgType := MessageType.ack
    subType := ackType
    testSuite := m.testSuite
    testCase := m.testCase
    token := m.token }

/-! ## DUTAuxiliary._send_and_wait_ack

Embeds the retry loop of `dut_auxiliary.py` lines 217-262.  The channel
is embedded as the list of results `_receive_msg` yields on the
successive tries (`none` = timeout); the loop sends once per iteration,
so the number of list entries consumed is the number of sends.  The
`tries` bound of the source loop is the length of the list. -/

/-- Embeds `DUTAuxiliary._send_and_wait_ack`: each list entry is the receive
result of one try.  Per iteration the message is sent, then the response
examined: `none` (timeout) continues, a non-matching response is treated
as NACK and continues, a matching response breaks with success.  Returns
(result, number of sends performed). -/
def sendAndWaitAck (req : DutMessage) : List (Option DutMessage) → Bool × Nat
  | [] => (false, 0)
  | none :: rest =>
      let r := sendAndWaitAck req rest
      (r.1, r.2 + 1)
  | some resp :: rest =>
      if checkIfAckMessageIsMatching req resp then (true, 1)
      else
        let r := sendAndWaitAck req rest
        (r.1, r.2 + 1)

/-- A response list entry that yields a matching acknowledgement. -/
def respMatches (req : DutMessage) (r : Option DutMessage) : Bool :=
  match r with
  | none => false
  | some m => checkIfAckMessageIsMatching req m

theorem sendAndWaitAck_all_nack (req : DutMessage) :
    ∀ rs : List (Option DutMessage),
      (∀ r ∈ rs, respMatches req r = false) →
      sendAndWaitAck req rs = (false, rs.length) := by
  intro rs h
  induction rs with
  | nil => rfl
  | cons r rest ih =>
      have hr := h r (List.mem_cons_self r rest)
      have hrest : ∀ x ∈ rest, respMatches req x = false := fun x hx =>
        h x (List.mem_cons_of_mem r hx)
      cases r with
      | none =>
          simp [sendAndWaitAck, ih hrest]
      | some m =>
          have : checkIfAckMessageIsMatching req m = false := by
            simpa [respMatches] using hr
          simp [sendAndWaitAck, this, ih hrest]

theorem sendAndWaitAck_first_match (req : DutMessage) :
    ∀ (rs : List (Option DutMessage)) (k : Nat) (hk : k < rs.length),
      (∀ j (hj : j < k), respMatches req (rs.get ⟨j, by omega⟩) = false) →
      respMatches req (rs.get ⟨k, hk⟩) = true →
      sendAndWaitAck req rs = (true, k + 1) := by
  intro rs
  induction rs with
  | nil => intro k hk; exact absurd hk (by simp)
  | cons r rest ih =>
      intro k hk hbefore hmatch
      cases k with
      | zero =>
          cases r with
          | none => simp [respMatches] at hmatch
          | some m =>
              have : checkIfAckMessageIsMatching req m = true := by
                simpa [respMatches] using hmatch
              simp [sendAndWaitAck, this]
      | succ k' =>
          have hfirst : respMatches req r = false := by
            have := hbefore 0 (Nat.succ_pos k')
            simpa using this
          have hk' : k' < rest.length := by
            simpa [Nat.succ_lt_succ_iff] using hk
          have hbefore' : ∀ j (hj : j < k'),
              respMatches req (rest.get ⟨j, by omega⟩) = false := by
            intro j hj
            have := hbefore (j + 1) (Nat.succ_lt_succ hj)
            simpa using this
          have hmatch' : respMatches req (rest.get ⟨k', hk'⟩) = true := by
            simpa using hmatch
          have hrec := ih k' hk' hbefore' hmatch'
          cases r with
          | none => simp [sendAndWaitAck, hrec]
          | some m =>
              have : checkIfAckMessageIsMatching req m = false := by
                simpa [respMatches] using hfirst
              simp [sendAndWaitAck, this, hrec]

theorem sendAndWaitAck_true_iff (req : DutMessage) :
    ∀ rs : List (Option DutMessage),
      (sendAndWaitAck req rs).1 = true ↔ ∃ r ∈ rs, respMatches req r = true := by
  intro rs
  induction rs with
  | nil => simp [sendAndWaitAck]
  | cons r rest ih =>
      cases r with
      | none => simp [sendAndWaitAck, respMatches, ih]
      | some m =>
          by_cases hm : checkIfAckMessageIsMatching req m = true
          · simp [sendAndWaitAck, hm, respMatches]
          · simp only [Bool.not_eq_true] at hm
            simp [sendAndWaitAck, hm, respMatches, ih]

/-! ## DUTAuxiliary._send_ping_command and _create_auxiliary_instance

`dut_auxiliary.py` lines 172-215 and 56-90.  A receive result is either
a timeout (`none`), a tuple (as forwarded by a bound proxy auxiliary) or
a parsed message. -/

/-- A result of `_receive_msg` inside the ping loop: a tuple (proxy
traffic) or a parsed message. -/
inductive PongResponse where
  | tup
  | msg (m : DutMessage)
  deriving DecidableEq, Repr

/-- The ping request built by `_send_ping_command`:
`message.Message(test_suite=0, test_case=0)` - a COMMAND with zero suite
and case ids and a fresh token. -/
def pingRequest (token : Nat) : DutMessage :=
  { msgType := MessageType.command
    subType := MessageSubType.ping
    testSuite := 0
    testCase := 0
    token := token }

/-- A ping-loop receive result that confirms liveness: non-`none`,
not a tuple, and matching the ping request. -/
def pongAcks (req : DutMessage) (r : Option PongResponse) : Bool :=
  match r with
  | some (PongResponse.msg m) => checkIfAckMessageIsMatching req m
  | _ => false

/-- The retry loop of `_send_ping_command` (lines 186-214): each list
entry is the receive result of one try; `tries` is the list length.
A `none` (timeout) or tuple response continues, a non-matching message
is a NACK and continues, a matching message breaks with success. -/
def pingLoop (req : DutMessage) : List (Option PongResponse) → Bool
  | [] => false
  | none :: rest => pingLoop req rest
  | some PongResponse.tup :: rest => pingLoop req rest
  | some (PongResponse.msg m) :: rest =>
      if checkIfAckMessageIsMatching req m then true else pingLoop req rest

/-- Embeds `DUTAuxiliary._send_ping_command`: flush one buffered receive
(consuming `flushed`, whose value is discarded), then run the ping
retry loop over the per-try receive results. -/
def sendPingCommand (token : Nat) (flushed : Option PongResponse)
    (attempts : List (Option PongResponse)) : Bool :=
  pingLoop (pingRequest token) attempts

/-- Environment of `_create_auxiliary_instance`: whether a flasher is
configured, the `_is_suspend` flag, and the outcomes of the external
flash and channel-open steps. -/
structure CreateEnv where
  hasFlash : Bool
  isSuspend : Bool
  flashOk : Bool
  openOk : Bool
  deriving DecidableEq, Repr

/-- Embeds `DUTAuxiliary._create_auxiliary_instance` (lines 56-90): flash if a
flasher is configured and not suspended (a flash error stops the
auxiliary and returns False); open the channel (an open error stops the
auxiliary and returns False); otherwise the result is the ping-pong test
`_send_ping_command(2, 1)` - one single try. -/
def createAuxiliaryInstance (env : CreateEnv) (token : Nat)
    (flushed : Option PongResponse) (attempt : Option PongResponse) : Bool :=
  if env.hasFlash && !env.isSuspend && !env.flashOk then false
  else if !env.openOk then false
  else sendPingCommand token flushed [attempt]

/-! ## DUTAuxiliary._abort_command and _receive_message -/

/-- Recovery actions taken by `_abort_command`. -/
inductive DutAction where
  | deleteInstance
  | createInstance
  deriving DecidableEq, Repr

/-- The abort request built by `_abort_command`:
`message.Message(MessageType.COMMAND, MessageCommandType.ABORT)`. -/
def abortRequest (token : Nat) : DutMessage :=
  { msgType := MessageType.command
    subType := MessageSubType.abort
    testSuite := 0
    testCase := 0
    token := token }

/-- Embeds `DUTAuxiliary._abort_command` (lines 133-149): send a COMMAND/ABORT
message through `_send_and_wait_ack(msg, 2, 2)` (two tries, embedded as
the two per-try receive results); if the result is False, perform
`_delete_auxiliary_instance()` then `_create_auxiliary_instance()`.
Returns the result and the recovery actions performed, in order. -/
def abortCommand (token : Nat) (responses : List (Option DutMessage)) :
    Bool × List DutAction :=
  let result := (sendAndWaitAck (abortRequest token) responses).1
  if result then (result, [])
  else (result, [DutAction.deleteInstance, DutAction.createInstance])

/-- Embeds `DUTAuxiliary._receive_message` (lines 151-170): read one message
from the channel; if one was obtained, generate the ACK acknowledgement
from it and send it before returning the message; on timeout return
`none` (the implicit Python `None`) having sent nothing.  Returns the
result and the list of messages sent on the channel. -/
def dutReceiveMessage (received : Option DutMessage) :
    Option DutMessage × List DutMessage :=
  match received with
  | some m => (some m, [generateAckMessage m MessageSubType.ackAck])
  | none => (none, [])

/-! ## Claim theorems for the DUT auxiliary -/

/-- C1: for every message, timeout and tries `N ≥ 1`,
`_send_and_wait_ack` with a responder whose responses never match sends
exactly `N` times and returns False; with a responder whose first
matching acknowledgement arrives on (0-indexed) attempt `k < N`, it
sends exactly `k + 1` times and returns True. -/
theorem C1_send_and_wait_ack_retry (req : DutMessage)
    (rs : List (Option DutMessage)) (N : Nat) (hN : rs.length = N)
    (hpos : 1 ≤ N) :
    ((∀ r ∈ rs, respMatches req r = false) →
      sendAndWaitAck req rs = (false, N)) ∧
    (∀ (k : Nat) (hk : k < N),
      (∀ j (hj : j < k), respMatches req (rs.get ⟨j, by omega⟩) = false) →
      respMatches req (rs.get ⟨k, by omega⟩) = true →
      sendAndWaitAck req rs = (true, k + 1)) := by
  constructor
  · intro h
    simpa [hN] using sendAndWaitAck_all_nack req rs h
  · intro k hk hbefore hmatch
    exact sendAndWaitAck_first_match req rs k (by omega) hbefore hmatch

/-- Witness for C1 at concrete inputs: a never-matching responder over
two tries yields `(false, 2)`; a responder matching on the second of
three tries yields `(true, 2)`. -/
theorem C1_send_and_wait_ack_retry_witness :
    sendAndWaitAck ⟨MessageType.command, MessageSubType.test, 1, 2, 5⟩
      [none, some ⟨MessageType.ack, MessageSubType.ackNack, 1, 2, 5⟩] = (false, 2) ∧
    sendAndWaitAck ⟨MessageType.command, MessageSubType.test, 1, 2, 5⟩
      [none, some ⟨MessageType.ack, MessageSubType.ackAck, 1, 2, 5⟩, none]
        = (true, 2) := by
  refine ⟨?_, ?_⟩
  · exact (C1_send_and_wait_ack_retry _ _ 2 (by decide) (by decide)).1 (by decide)
  · exact (C1_send_and_wait_ack_retry _ _ 3 (by decide) (by decide)).2 1 (by decide)
      (by decide) (by decide)

theorem pingLoop_single (req : DutMessage) (r : Option PongResponse) :
    pingLoop req [r] = pongAcks req r := by
  cases r with
  | none => rfl
  | some p =>
      cases p with
      | tup => rfl
      | msg m => simp [pingLoop, pongAcks]

theorem pongAcks_true_iff (req : DutMessage) (r : Option PongResponse) :
    pongAcks req r = true ↔
      ∃ m, r = some (PongResponse.msg m)
        ∧ checkIfAckMessageIsMatching req m = true := by
  cases r with
  | none => simp [pongAcks]
  | some p =>
      cases p with
      | tup => simp [pongAcks]
      | msg m => simp [pongAcks]

/-- C6: `_create_auxiliary_instance` returns True only if, after the
channel was opened, the ping (suite 0, case 0) received a response that
is non-`none`, not a tuple, and matches the ping per the codec's
matching rule within the configured single try; if no try yields such a
matching acknowledgement, creation returns False. -/
theorem C6_create_instance_ping_liveness (env : CreateEnv) (token : Nat)
    (flushed attempt : Option PongResponse) :
    (createAuxiliaryInstance env token flushed attempt = true →
      env.openOk = true ∧
        ∃ m, attempt = some (PongResponse.msg m)
          ∧ checkIfAckMessageIsMatching (pingRequest token) m = true) ∧
    ((¬ ∃ m, attempt = some (PongResponse.msg m)
          ∧ checkIfAckMessageIsMatching (pingRequest token) m = true) →
      createAuxiliaryInstance env token flushed attempt = false) := by
  have hping : sendPingCommand token flushed [attempt]
      = pongAcks (pingRequest token) attempt := by
    simpa [sendPingCommand] using pingLoop_single (pingRequest token) attempt
  constructor
  · intro h
    unfold createAuxiliaryInstance at h
    by_cases hflash : (env.hasFlash && !env.isSuspend && !env.flashOk) = true
    · simp [hflash] at h
    · rw [if_neg (by simpa using hflash)] at h
      by_cases hopen : env.openOk = true
      · refine ⟨hopen, ?_⟩
        rw [if_neg (by simp [hopen]), hping] at h
        exact (pongAcks_true_iff (pingRequest token) attempt).mp h
      · have : (!env.openOk) = true := by
          simp [Bool.not_eq_true] at hopen; simp [hopen]
        simp [this] at h
  · intro h
    have hfalse : pongAcks (pingRequest token) attempt = false := by
      by_contra hc
      simp only [Bool.not_eq_false] at hc
      exact h ((pongAcks_true_iff (pingRequest token) attempt).mp hc)
    unfold createAuxiliaryInstance
    by_cases hflash : (env.hasFlash && !env.isSuspend && !env.flashOk) = true
    · simp [hflash]
    · rw [if_neg (by simpa using hflash)]
      by_cases hopen : (!env.openOk) = true
      · simp [hopen]
      · rw [if_neg (by simpa using hopen), hping, hfalse]

/-- Witness for C6: without any matching pong, creation fails on a
concrete environment. -/
theorem C6_create_instance_ping_liveness_witness :
    createAuxiliaryInstance ⟨false, false, true, true⟩ 0 none none = false :=
  (C6_create_instance_ping_liveness ⟨false, false, true, true⟩ 0 none none).2
    (by simp)

/-- C7: `_abort_command` returns True iff a matching acknowledgement to
the ABORT command is received within the two-try retry budget; whenever
the result is False it performs the hard reset - delete then recreate
the instance - and whenever it is True no recovery action is taken. -/
theorem C7_abort_hard_reset (token : Nat)
    (responses : List (Option DutMessage)) (h2 : responses.length = 2) :
    ((abortCommand token responses).1 = true ↔
      ∃ r ∈ responses, respMatches (abortRequest token) r = true) ∧
    ((abortCommand token responses).1 = false →
      (abortCommand token responses).2
        = [DutAction.deleteInstance, DutAction.createInstance]) ∧
    ((abortCommand token responses).1 = true →
      (abortCommand token responses).2 = []) := by
  have hiff := sendAndWaitAck_true_iff (abortRequest token) responses
  by_cases hres : (sendAndWaitAck (abortRequest token) responses).1 = true
  · refine ⟨?_, ?_, ?_⟩
    · simp [abortCommand, hres, hiff.mp hres]
    · intro h
      simp [abortCommand, hres] at h
    · intro _
      simp [abortCommand, hres]
  · have hres' : (sendAndWaitAck (abortRequest token) responses).1 = false := by
      simpa [Bool.not_eq_true] using hres
    refine ⟨?_, ?_, ?_⟩
    · rw [← hiff]
      simp [abortCommand, hres']
    · intro _
      simp [abortCommand, hres']
    · intro h
      simp [abortCommand, hres'] at h

/-- Witness for C7: with two timeouts, abort fails and the recovery
trace is delete-then-create. -/
theorem C7_abort_hard_reset_witness :
    (abortCommand 0 [none, none]).2
      = [DutAction.deleteInstance, DutAction.createInstance] :=
  (C7_abort_hard_reset 0 [none, none] (by decide)).2.1 (by decide)

/-- C9: `_receive_message` with a non-`none` channel result generates
the ACK acknowledgement from the received message and sends exactly it
before returning the message (the generated message is an ACK matching
the received one); with no message received it returns `none` and sends
nothing. -/
theorem C9_receive_message_acks (m : DutMessage) :
    dutReceiveMessage (some m)
        = (some m, [generateAckMessage m MessageSubType.ackAck]) ∧
    (generateAckMessage m MessageSubType.ackAck).msgType = MessageType.ack ∧
    checkIfAckMessageIsMatching m (generateAckMessage m MessageSubType.ackAck)
        = true ∧
    dutReceiveMessage none = (none, ([] : List DutMessage)) := by
  refine ⟨rfl, rfl, ?_, rfl⟩
  simp [checkIfAckMessageIsMatching, generateAckMessage]

/-! ## CanAuxiliary signal cache (`can_auxiliary.py`)

`self.can_messages` is a Python dict mapping a message name to a
`Queue(maxsize=1)`.  It is embedded as an association list from names to
the queue contents (front of the list = next item to be got); dict
assignment is `assocSet`, dict `.get` is `assocGet`. -/

/-- Modelled from the spec: a decoded CAN message as cached by the CAN
auxiliary (`pykiso.can_message.CanMessage`, not in the tree): message
name, decoded signal values, reception timestamp. -/
structure CanMessage where
  name : String
  signals : List (String × Int)
  timestamp : Rat
  deriving DecidableEq, Repr

/-- Look a key up in an association list (Python `dict.get`). -/
def assocGet {α β : Type} [DecidableEq α] : List (α × β) → α → Option β
  | [], _ => none
  | (k', v) :: rest, k => if k' = k then some v else assocGet rest k

/-- Replace the value stored under a key in an association list, or
append the binding if the key is absent (Python dict assignment). -/
def assocSet {α β : Type} [DecidableEq α] : List (α × β) → α → β → List (α × β)
  | [], k, v => [(k, v)]
  | (k', v') :: rest, k, v =>
      if k' = k then (k, v) :: rest else (k', v') :: assocSet rest k v

/-- The CAN auxiliary's `self.can_messages` cache. -/
abbrev CanCache : Type := List (String × List CanMessage)

/-- The cache update performed by `CanAuxiliary._receive_message`
(lines 85-118) when a frame was received and decoded to `msg` (channel
errors and unknown frames are swallowed and leave the cache unchanged):
create the slot if absent, drain one item if the slot is not empty,
then put the freshly decoded message. -/
def canReceiveUpdate (cache : CanCache) (msg : CanMessage) : CanCache :=
  let q := (assocGet cache msg.name).getD []
  let q1 := if q.isEmpty then q else q.drop 1
  assocSet cache msg.name (q1 ++ [msg])

/-- Embeds `CanAuxiliary.get_last_message` (lines 120-132): if the slot exists
and is not empty, take its front item, immediately re-insert it with
`put_nowait` and return it; otherwise return `none` with the cache
untouched. -/
def getLastMessage (cache : CanCache) (name : String) :
    Option CanMessage × CanCache :=
  match assocGet cache name with
  | some (m :: rest) => (some m, assocSet cache name (rest ++ [m]))
  | _ => (none, cache)

/-- Embeds `CanAuxiliary.wait_for_message` (lines 149-174).  `incoming` is the
message, if any, put into the slot by the reception worker during the
blocking `get(timeout=timeout)` wait.  The slot is created if absent, a
previously cached item is drained and remembered as `old_value`, then
the blocking get either consumes the front of what the slot now holds
(re-inserting and returning it) or raises `Empty`, in which case
`old_value` is re-inserted with `put_nowait` and `none` returned. -/
def waitForMessage (cache : CanCache) (name : String)
    (incoming : Option CanMessage) : Option CanMessage × CanCache :=
  let cache1 :=
    match assocGet cache name with
    | none => assocSet cache name []
    | some _ => cache
  let q := (assocGet cache1 name).getD []
  let oldValue := q.head?
  let q1 := q.drop 1
  let cache2 := assocSet cache1 name q1
  match q1 ++ incoming.toList with
  | newMsg :: rest => (some newMsg, assocSet cache2 name (rest ++ [newMsg]))
  | [] =>
      match oldValue with
      | some o => (none, assocSet cache2 name (q1 ++ [o]))
      | none => (none, cache2)

/-- The single-slot invariant of the signal cache: no per-message-name
slot ever holds more than one item. -/
def canCacheInv (cache : CanCache) : Prop :=
  ∀ p ∈ cache, p.2.length ≤ 1

theorem assocGet_mem {α β : Type} [DecidableEq α] :
    ∀ (c : List (α × β)) (k : α) (v : β), assocGet c k = some v → (k, v) ∈ c := by
  intro c k v
  induction c with
  | nil => intro h; simp [assocGet] at h
  | cons p rest ih =>
      intro h
      by_cases hk : p.1 = k
      · have : some p.2 = some v := by
          simpa [assocGet, hk] using h
        have hv : p.2 = v := by injection this
        subst hv
        simp [← hk]
      · have : assocGet rest k = some v := by
          simpa [assocGet, hk] using h
        exact List.mem_cons_of_mem p (ih this)

theorem mem_assocSet {α β : Type} [DecidableEq α] :
    ∀ (c : List (α × β)) (k : α) (v : β) (p : α × β),
      p ∈ assocSet c k v → p = (k, v) ∨ p ∈ c := by
  intro c k v
  induction c with
  | nil => intro p hp; simpa [assocSet] using hp
  | cons q rest ih =>
      intro p hp
      by_cases hk : q.1 = k
      · have : p ∈ (k, v) :: rest := by simpa [assocSet, hk] using hp
        rcases List.mem_cons.mp this with h | h
        · exact Or.inl h
        · exact Or.inr (List.mem_cons_of_mem q h)
      · have : p ∈ q :: assocSet rest k v := by simpa [assocSet, hk] using hp
        rcases List.mem_cons.mp this with h | h
        · exact Or.inr (by simp [h])
        · rcases ih p h with h' | h'
          · exact Or.inl h'
          · exact Or.inr (List.mem_cons_of_mem q h')

theorem canCacheInv_assocSet {cache : CanCache} (hinv : canCacheInv cache)
    (name : String) {q : List CanMessage} (hq : q.length ≤ 1) :
    canCacheInv (assocSet cache name q) := by
  intro p hp
  rcases mem_assocSet cache name q p hp with h | h
  · subst h; exact hq
  · exact hinv p h

theorem canCacheInv_slot {cache : CanCache} (hinv : canCacheInv cache)
    {name : String} {q : List CanMessage} (h : assocGet cache name = some q) :
    q.length ≤ 1 :=
  hinv (name, q) (assocGet_mem cache name q h)

theorem assocSet_self_of_get {α β : Type} [DecidableEq α] :
    ∀ (c : List (α × β)) (k : α) (v : β),
      assocGet c k = some v → assocSet c k v = c := by
  intro c k v
  induction c with
  | nil => intro h; simp [assocGet] at h
  | cons p rest ih =>
      intro h
      by_cases hk : p.1 = k
      · have : some p.2 = some v := by simpa [assocGet, hk] using h
        have hv : p.2 = v := by injection this
        subst hk
        simp [assocSet, ← hv]
      · have hrest : assocGet rest k = some v := by
          simpa [assocGet, hk] using h
        simp [assocSet, hk, ih hrest]

theorem assocSet_assocSet {α β : Type} [DecidableEq α] :
    ∀ (c : List (α × β)) (k : α) (v w : β),
      assocSet (assocSet c k v) k w = assocSet c k w := by
  intro c k v w
  induction c with
  | nil => simp [assocSet]
  | cons p rest ih =>
      by_cases hk : p.1 = k
      · simp [assocSet, hk]
      · simp [assocSet, hk, ih]

theorem getLastMessage_of_slot {cache : CanCache} {n : String}
    {m : CanMessage} (hslot : assocGet cache n = some [m]) :
    getLastMessage cache n = (some m, cache) := by
  unfold getLastMessage
  rw [hslot]
  simp [assocSet_self_of_get cache n [m] hslot]

/-- C5: in every cache state satisfying the single-slot invariant in
which a message is cached under name `n`, two consecutive
`get_last_message n` calls both return that same most-recent message and
leave the cache unchanged (the read removes the item and immediately
re-inserts it); and every cache operation - the reception update,
`get_last_message` and `wait_for_message` - preserves the invariant that
a slot never holds more than one item. -/
theorem C5_signal_cache_peek_with_refill (cache : CanCache) (n : String)
    (m : CanMessage) (hinv : canCacheInv cache) :
    (assocGet cache n = some [m] →
      getLastMessage cache n = (some m, cache) ∧
      getLastMessage (getLastMessage cache n).2 n = (some m, cache)) ∧
    (∀ msg, canCacheInv (canReceiveUpdate cache msg)) ∧
    (∀ name, canCacheInv (getLastMessage cache name).2) ∧
    (∀ name incoming, canCacheInv (waitForMessage cache name incoming).2) := by
  refine ⟨?_, ?_, ?_, ?_⟩
  · intro hslot
    have h1 := getLastMessage_of_slot hslot
    refine ⟨h1, ?_⟩
    rw [h1]
    exact h1
  · intro msg
    unfold canReceiveUpdate
    rcases hq : assocGet cache msg.name with _ | q
    · simp only [hq, Option.getD_none]
      exact canCacheInv_assocSet hinv msg.name (by simp)
    · have hlen := canCacheInv_slot hinv hq
      simp only [hq, Option.getD_some]
      refine canCacheInv_assocSet hinv msg.name ?_
      match q, hlen with
      | [], _ => simp
      | [x], _ => simp
  · intro name
    unfold getLastMessage
    rcases hq : assocGet cache name with _ | q
    · exact hinv
    · match q, canCacheInv_slot hinv hq with
      | [], _ => exact hinv
      | [x], _ =>
          simp only []
          exact canCacheInv_assocSet hinv name (by simp)
  · intro name incoming
    unfold waitForMessage
    rcases hq : assocGet cache name with _ | q
    · simp only [hq]
      have hinv1 : canCacheInv (assocSet cache name []) :=
        canCacheInv_assocSet hinv name (by simp)
      rcases hq1 : assocGet (assocSet cache name []) name with _ | q'
      · simp only [hq1, Option.getD_none, List.drop_nil, List.nil_append]
        cases incoming with
        | none => exact canCacheInv_assocSet hinv1 name (by simp)
        | some newMsg =>
            simp only [Option.toList]
            exact canCacheInv_assocSet
              (canCacheInv_assocSet hinv1 name (by simp)) name (by simp)
      · have hlen' := canCacheInv_slot hinv1 hq1
        simp only [hq1, Option.getD_some]
        match q', hlen' with
        | [], _ =>
            cases incoming with
            | none => exact canCacheInv_assocSet hinv1 name (by simp)
            | some newMsg =>
                simp only [Option.toList]
                exact canCacheInv_assocSet
                  (canCacheInv_assocSet hinv1 name (by simp)) name (by simp)
        | [x], _ =>
            cases incoming with
            | none =>
                simp only [Option.toList, List.drop_succ_cons, List.drop_nil,
                  List.nil_append, List.head?_cons]
                exact canCacheInv_assocSet
                  (canCacheInv_assocSet hinv1 name (by simp)) name (by simp)
            | some newMsg =>
                simp only [Option.toList, List.drop_succ_cons, List.drop_nil,
                  List.nil_append, List.head?_cons]
                exact canCacheInv_assocSet
                  (canCacheInv_assocSet hinv1 name (by simp)) name (by simp)
    · simp only [hq]
      have hlen := canCacheInv_slot hinv hq
      match q, hlen with
      | [], _ =>
          simp only [hq, Option.getD_some, List.drop_nil, List.nil_append]
          cases incoming with
          | none => exact canCacheInv_assocSet hinv name (by simp)
          | some newMsg =>
              simp only [Option.toList]
              exact canCacheInv_assocSet
                (canCacheInv_assocSet hinv name (by simp)) name (by simp)
      | [x], _ =>
          simp only [hq, Option.getD_some, List.drop_succ_cons, List.drop_nil,
            List.nil_append, List.head?_cons]
          cases incoming with
          | none =>
              exact canCacheInv_assocSet
                (canCacheInv_assocSet hinv name (by simp)) name (by simp)
          | some newMsg =>
              exact canCacheInv_assocSet
                (canCacheInv_assocSet hinv name (by simp)) name (by simp)

/-- Witness for C5: on a one-slot cache holding one message, both
consecutive reads return it and the cache is unchanged. -/
theorem C5_signal_cache_peek_with_refill_witness :
    getLastMessage [("Msg", [⟨"Msg", [("sig", 1)], 0⟩])] "Msg"
      = (some ⟨"Msg", [("sig", 1)], 0⟩, [("Msg", [⟨"Msg", [("sig", 1)], 0⟩])]) :=
  ((C5_signal_cache_peek_with_refill [("Msg", [⟨"Msg", [("sig", 1)], 0⟩])]
    "Msg" ⟨"Msg", [("sig", 1)], 0⟩ (by simp [canCacheInv])).1 (by decide)).1

/-- C10: if a message is cached under `n` and `wait_for_message n`
times out (no new message arrives during the wait), it returns `none`
and re-inserts the previously cached message, leaving the cache exactly
as it was - the last received message is never lost. -/
theorem C10_wait_for_message_timeout_refills (cache : CanCache) (n : String)
    (m : CanMessage) (hinv : canCacheInv cache)
    (hslot : assocGet cache n = some [m]) :
    waitForMessage cache n none = (none, cache) := by
  unfold waitForMessage
  simp only [hslot, Option.getD_some, List.drop_succ_cons, List.drop_nil,
    List.head?_cons, Option.toList, List.nil_append]
  rw [assocSet_assocSet]
  rw [assocSet_self_of_get cache n [m] hslot]

/-- Witness for C10: a timed-out wait on a one-slot cache returns `none`
and leaves the cache unchanged. -/
theorem C10_wait_for_message_timeout_refills_witness :
    waitForMessage [("Msg", [⟨"Msg", [("sig", 1)], 0⟩])] "Msg" none
      = (none, [("Msg", [⟨"Msg", [("sig", 1)], 0⟩])]) :=
  C10_wait_for_message_timeout_refills [("Msg", [⟨"Msg", [("sig", 1)], 0⟩])]
    "Msg" ⟨"Msg", [("sig", 1)], 0⟩ (by simp [canCacheInv]) (by decide)

/-! ## UDS server auxiliary (modelled from the spec)

The UDS server's source is not in the tree (only its test suite is);
its STmin encoding, message padding and callback dispatch table are
modelled from the specification, section 4.4. -/

/-- Modelled from the spec: `UdsServerAuxiliary.encode_stmin` - an ISO-TP
separation time below 1 ms is encoded as `0xF0 | round(ms*10)`, values
from 0 to 127 ms as the integer millisecond count, and values outside
[0, 127] ms fail validation with a `ValueError`.  Times are rationals
(the Python argument is an int or float). -/
def encode_stmin (stmin : ℚ) : Except String ℕ :=
  if stmin < 0 ∨ 127 < stmin then Except.error "Invalid STmin value"
  else if 0 < stmin ∧ stmin < 1 then
    Except.ok (0xF0 + (round (stmin * 10)).toNat)
  else Except.ok (⌊stmin⌋).toNat

/-- Modelled from the spec: the fixed CAN-FD padding byte used by the UDS
server's `_pad_message` (the spec fixes only that a single constant byte
pattern is used; its value is immaterial to the claims). -/
def CAN_FD_PADDING_PATTERN : Nat := 0xCC

/-- Modelled from the spec: the minimal CAN-FD ladder of allowed frame
lengths. -/
def FRAME_LENGTHS : List Nat := [8, 12, 16, 20, 24, 32, 48, 64]

/-- Modelled from the spec: `UdsServerAuxiliary._pad_message` pads an
outbound payload to the smallest allowed frame length at least the
payload length, filling with the fixed padding byte (payloads longer
than the largest frame are the segmenter's business and returned
unchanged). -/
def pad_message (msg : List Nat) : List Nat :=
  match FRAME_LENGTHS.find? (fun l => msg.length ≤ l) with
  | some l => msg ++ List.replicate (l - msg.length) CAN_FD_PADDING_PATTERN
  | none => msg

/-! ## Claim theorems for STmin encoding and padding -/

/-- C3: `encode_stmin` maps integer separation times in [0, 127] ms to
the integer millisecond count (0, 1 and 127 at the test points), times
below 1 ms to `0xF0` plus the tenths-of-millisecond count (0.1, 0.9 and
0.10001 at the test points, sub-0.1 ms precision collapsing), and fails
validation for every value outside [0, 127] ms, in particular every
negative value. -/
theorem C3_encode_stmin_encoding (q : ℚ) (n : Nat) :
    (encode_stmin 0 = Except.ok 0x00 ∧ encode_stmin 1 = Except.ok 0x01 ∧
      encode_stmin 127 = Except.ok 0x7F) ∧
    (encode_stmin (1/10) = Except.ok 0xF1 ∧
      encode_stmin (9/10) = Except.ok 0xF9 ∧
      encode_stmin (10001/100000) = Except.ok 0xF1) ∧
    (n ≤ 127 → encode_stmin (n : ℚ) = Except.ok n) ∧
    (0 < q → q < 1 →
      encode_stmin q = Except.ok (0xF0 + (round (q * 10)).toNat)) ∧
    (q < 0 ∨ 127 < q → encode_stmin q = Except.error "Invalid STmin value") := by
  refine ⟨⟨?_, ?_, ?_⟩, ⟨?_, ?_, ?_⟩, ?_, ?_, ?_⟩
  · rfl
  · rfl
  · rfl
  · rw [encode_stmin, if_neg (by norm_num), if_pos (by norm_num)]
    norm_num
  · rw [encode_stmin, if_neg (by norm_num), if_pos (by norm_num)]
    norm_num
    decide
  · rw [encode_stmin, if_neg (by norm_num), if_pos (by norm_num)]
    norm_num [round_eq]
  · intro hn
    have h1 : ¬((n : ℚ) < 0 ∨ 127 < (n : ℚ)) := by
      push_neg
      constructor
      · positivity
      · exact_mod_cast hn
    rcases Nat.eq_zero_or_pos n with h0 | hpos
    · subst h0
      simp [encode_stmin]
    · have h2 : ¬(0 < (n : ℚ) ∧ (n : ℚ) < 1) := by
        rintro ⟨-, hlt⟩
        have : (1 : ℚ) ≤ (n : ℚ) := by exact_mod_cast hpos
        linarith
      rw [encode_stmin, if_neg h1, if_neg h2]
      simp
  · intro hq0 hq1
    have h1 : ¬(q < 0 ∨ 127 < q) := by
      push_neg
      constructor
      · linarith
      · linarith
    rw [encode_stmin, if_neg h1, if_pos ⟨hq0, hq1⟩]
  · intro h
    rw [encode_stmin, if_pos h]

/-- Witness for C3: a negative separation time fails validation. -/
theorem C3_encode_stmin_encoding_witness :
    encode_stmin (-1) = Except.error "Invalid STmin value" :=
  (C3_encode_stmin_encoding (-1) 0).2.2.2.2 (Or.inl (by norm_num))

/-- C4: for every payload of at most 64 bytes, `_pad_message` yields the
smallest ladder frame length at least the payload length (in particular
7, 9, 20, 21, 42 and 62 bytes pad to 8, 12, 20, 24, 48 and 64), keeps
the payload as prefix, creates no other entry, and every byte beyond the
payload is the fixed CAN-FD padding pattern. -/
theorem C4_pad_message_ladder (msg : List Nat) (h64 : msg.length ≤ 64) :
    ((pad_message msg).length ∈ FRAME_LENGTHS ∧
      msg.length ≤ (pad_message msg).length ∧
      (∀ l ∈ FRAME_LENGTHS, msg.length ≤ l → (pad_message msg).length ≤ l)) ∧
    (pad_message msg).take msg.length = msg ∧
    (∀ b ∈ (pad_message msg).drop msg.length, b = CAN_FD_PADDING_PATTERN) ∧
    ((pad_message (List.replicate 7 1)).length = 8 ∧
      (pad_message (List.replicate 9 1)).length = 12 ∧
      (pad_message (List.replicate 20 1)).length = 20 ∧
      (pad_message (List.replicate 21 1)).length = 24 ∧
      (pad_message (List.replicate 42 1)).length = 48 ∧
      (pad_message (List.replicate 62 1)).length = 64) := by
  have key : ∀ n, n < 65 →
      FRAME_LENGTHS.find? (fun l => n ≤ l)
          = some ((FRAME_LENGTHS.find? (fun l => n ≤ l)).getD 0) ∧
        (FRAME_LENGTHS.find? (fun l => n ≤ l)).getD 0 ∈ FRAME_LENGTHS ∧
        n ≤ (FRAME_LENGTHS.find? (fun l => n ≤ l)).getD 0 ∧
        ∀ l ∈ FRAME_LENGTHS, n ≤ l →
          (FRAME_LENGTHS.find? (fun l => n ≤ l)).getD 0 ≤ l := by
    decide
  obtain ⟨hfind, hmem, hle, hmin⟩ := key msg.length (by omega)
  have hpad : pad_message msg
      = msg ++ List.replicate
          (((FRAME_LENGTHS.find? (fun l => msg.length ≤ l)).getD 0)
            - msg.length) CAN_FD_PADDING_PATTERN := by
    unfold pad_message
    rw [hfind]
    rfl
  have hlen : (pad_message msg).length
      = (FRAME_LENGTHS.find? (fun l => msg.length ≤ l)).getD 0 := by
    rw [hpad]
    simp
    omega
  refine ⟨⟨?_, ?_, ?_⟩, ?_, ?_, ?_⟩
  · rw [hlen]; exact hmem
  · rw [hlen]; exact hle
  · intro l hl hml
    rw [hlen]
    exact hmin l hl hml
  · rw [hpad]
    simpa using List.take_left msg _
  · intro b hb
    rw [hpad] at hb
    have : b ∈ List.replicate
        (((FRAME_LENGTHS.find? (fun l => msg.length ≤ l)).getD 0)
          - msg.length) CAN_FD_PADDING_PATTERN := by
      simpa using hb
    exact (List.eq_of_mem_replicate this)
  · refine ⟨?_, ?_, ?_, ?_, ?_, ?_⟩ <;> decide

/-- Witness for C4 on a 7-byte payload. -/
theorem C4_pad_message_ladder_witness :
    ((pad_message (List.replicate 7 2)).length ∈ FRAME_LENGTHS ∧
      (List.replicate 7 2 : List Nat).length
        ≤ (pad_message (List.replicate 7 2)).length ∧
      (∀ l ∈ FRAME_LENGTHS, (List.replicate 7 2 : List Nat).length ≤ l →
        (pad_message (List.replicate 7 2)).length ≤ l)) ∧
    (pad_message (List.replicate 7 2)).take
        (List.replicate 7 2 : List Nat).length = List.replicate 7 2 ∧
    (∀ b ∈ (pad_message (List.replicate 7 2)).drop
        (List.replicate 7 2 : List Nat).length, b = CAN_FD_PADDING_PATTERN) ∧
    ((pad_message (List.replicate 7 1)).length = 8 ∧
      (pad_message (List.replicate 9 1)).length = 12 ∧
      (pad_message (List.replicate 20 1)).length = 20 ∧
      (pad_message (List.replicate 21 1)).length = 24 ∧
      (pad_message (List.replicate 42 1)).length = 48 ∧
      (pad_message (List.replicate 62 1)).length = 64) :=
  C4_pad_message_ladder (List.replicate 7 2) (by decide)

/-! ## UDS callback dispatch table (modelled from the spec) -/

/-- Modelled from the spec: a UDS callback as stored in the dispatch
table - the coded request bytes and the response bytes it answers with
(the remaining `UdsCallback` fields play no role in the table claims). -/
structure UdsCallback where
  request : List Nat
  response : List Nat
  deriving DecidableEq, Repr

/-- One uppercase hexadecimal digit. -/
def hexDigit (n : Nat) : Char :=
  if n < 10 then Char.ofNat (48 + n) else Char.ofNat (55 + n)

/-- One byte as two uppercase hexadecimal digits. -/
def byteToHex (b : Nat) : String :=
  String.mk [hexDigit (b / 16 % 16), hexDigit (b % 16)]

/-- Modelled from the spec: the primary dispatch key - an uppercase hex
string of the request's leading bytes, zero-padded to an even number of
digits (for example `[0x22, 0xA4, 0x55]` gives `"0x22A455"`). -/
def requestHexKey (request : List Nat) : String :=
  "0x" ++ String.join (request.map byteToHex)

/-- The UDS server's `self._callbacks` dispatch table. -/
abbrev UdsCallbacks : Type := List (String × UdsCallback)

/-- Modelled from the spec: registering a callback derived from symbolic
(ODX) parameters stores it under the hex key of its coded request bytes
and additionally under the symbolic key
`"<ServiceName>.<ParameterName>"`, both entries referencing the same
callback. -/
def register_callback_odx (table : UdsCallbacks) (request response : List Nat)
    (serviceName paramName : String) : UdsCallbacks :=
  let cb : UdsCallback := ⟨request, response⟩
  assocSet (assocSet table (requestHexKey request) cb)
    (serviceName ++ "." ++ paramName) cb

/-- Modelled from the spec: `unregister_callback` looks the given key up
and removes every alias of the callback found (every table entry holding
that same callback); an unknown key only logs an error and leaves the
table unchanged. -/
def unregister_callback (table : UdsCallbacks) (key : String) : UdsCallbacks :=
  match assocGet table key with
  | none => table
  | some cb => table.filter (fun p => decide (p.2 ≠ cb))

theorem assocGet_assocSet_self {α β : Type} [DecidableEq α] :
    ∀ (c : List (α × β)) (k : α) (v : β), assocGet (assocSet c k v) k = some v := by
  intro c k v
  induction c with
  | nil => simp [assocSet, assocGet]
  | cons p rest ih =>
      by_cases hk : p.1 = k
      · simp [assocSet, hk, assocGet]
      · simp [assocSet, hk, assocGet, ih]

theorem assocGet_assocSet_ne {α β : Type} [DecidableEq α] :
    ∀ (c : List (α × β)) (k k' : α) (v : β), k ≠ k' →
      assocGet (assocSet c k v) k' = assocGet c k' := by
  intro c k k' v hne
  induction c with
  | nil => simp [assocSet, assocGet, hne]
  | cons p rest ih =>
      by_cases hk : p.1 = k
      · simp [assocSet, hk, assocGet, hne]
      · simp [assocSet, hk, assocGet, ih]

theorem keys_assocSet_nodup {α β : Type} [DecidableEq α] :
    ∀ (c : List (α × β)) (k : α) (v : β),
      (c.map Prod.fst).Nodup → ((assocSet c k v).map Prod.fst).Nodup := by
  intro c k v
  induction c with
  | nil =>
      intro _
      simp [assocSet]
  | cons p rest ih =>
      obtain ⟨a, b⟩ := p
      intro hnodup
      rw [List.map_cons, List.nodup_cons] at hnodup
      obtain ⟨hnotin, hrest⟩ := hnodup
      by_cases hk : a = k
      · subst hk
        rw [assocSet, if_pos rfl, List.map_cons, List.nodup_cons]
        exact ⟨hnotin, hrest⟩
      · have hkeys : ∀ x ∈ (assocSet rest k v).map Prod.fst,
            x ∈ k :: rest.map Prod.fst := by
          intro x hx
          obtain ⟨q, hq, hqx⟩ := List.mem_map.mp hx
          rcases mem_assocSet rest k v q hq with h | h
          · subst h
            subst hqx
            simp
          · exact List.mem_cons_of_mem k (List.mem_map.mpr ⟨q, h, hqx⟩)
        rw [assocSet, if_neg hk, List.map_cons, List.nodup_cons]
        refine ⟨?_, ih hrest⟩
        intro hmem
        rcases List.mem_cons.mp (hkeys a hmem) with h | h
        · exact hk h
        · exact hnotin h

theorem assocGet_none_of_not_mem_keys {α β : Type} [DecidableEq α] :
    ∀ (c : List (α × β)) (k : α), k ∉ c.map Prod.fst → assocGet c k = none := by
  intro c k
  induction c with
  | nil => intro _; rfl
  | cons p rest ih =>
      obtain ⟨a, b⟩ := p
      intro hnot
      rw [List.map_cons] at hnot
      have h1 : a ≠ k := fun h => hnot (by simp [h])
      have h2 : k ∉ rest.map Prod.fst :=
        fun h => hnot (List.mem_cons_of_mem _ h)
      rw [assocGet, if_neg h1]
      exact ih h2

theorem keys_filter_subset {α β : Type} :
    ∀ (c : List (α × β)) (f : α × β → Bool) (k : α),
      k ∈ (c.filter f).map Prod.fst → k ∈ c.map Prod.fst := by
  intro c f k hk
  obtain ⟨p, hp, hpk⟩ := List.mem_map.mp hk
  exact List.mem_map.mpr ⟨p, List.mem_of_mem_filter hp, hpk⟩

theorem assocGet_filter_none {α β : Type} [DecidableEq α] :
    ∀ (c : List (α × β)) (k : α) (v : β) (f : α × β → Bool),
      (c.map Prod.fst).Nodup → assocGet c k = some v → f (k, v) = false →
      assocGet (c.filter f) k = none := by
  intro c k v f
  induction c with
  | nil => intro _ hget; simp [assocGet] at hget
  | cons p rest ih =>
      obtain ⟨a, b⟩ := p
      intro hnodup hget hf
      rw [List.map_cons, List.nodup_cons] at hnodup
      obtain ⟨hnotin, hrest⟩ := hnodup
      by_cases hk : a = k
      · subst hk
        have hv : b = v := by
          have : some b = some v := by simpa [assocGet] using hget
          injection this
        subst hv
        rw [List.filter_cons]
        simp only [hf, Bool.false_eq_true, if_false]
        apply assocGet_none_of_not_mem_keys
        intro hmem
        exact hnotin (keys_filter_subset rest f a hmem)
      · have hget' : assocGet rest k = some v := by
          simpa [assocGet, hk] using hget
        have htail := ih hrest hget' hf
        rw [List.filter_cons]
        cases hfp : f (a, b) with
        | false => simpa using htail
        | true =>
            simp only [if_true]
            rw [assocGet, if_neg hk]
            exact htail

/-- C2: registering a callback built from symbolic (ODX) parameters on
a duplicate-free dispatch table creates the hex-keyed and the
symbolic-keyed entry, both holding the same (equal) callback, creates no
entry under any other key, and unregistering through either of the two
keys removes both entries. -/
theorem C2_register_callback_dual_key (table : UdsCallbacks)
    (request response : List Nat) (serviceName paramName : String)
    (hnodup : (table.map Prod.fst).Nodup) :
    assocGet (register_callback_odx table request response serviceName paramName)
        (requestHexKey request) = some ⟨request, response⟩ ∧
    assocGet (register_callback_odx table request response serviceName paramName)
        (serviceName ++ "." ++ paramName) = some ⟨request, response⟩ ∧
    (∀ k, k ≠ requestHexKey request → k ≠ serviceName ++ "." ++ paramName →
      assocGet (register_callback_odx table request response serviceName paramName)
        k = assocGet table k) ∧
    (∀ key, (key = requestHexKey request ∨ key = serviceName ++ "." ++ paramName) →
      assocGet (unregister_callback
          (register_callback_odx table request response serviceName paramName) key)
        (requestHexKey request) = none ∧
      assocGet (unregister_callback
          (register_callback_odx table request response serviceName paramName) key)
        (serviceName ++ "." ++ paramName) = none) := by
  set cb : UdsCallback := ⟨request, response⟩ with hcb
  set hexKey := requestHexKey request with hhex
  set odxKey := serviceName ++ "." ++ paramName with hodx
  set table1 := register_callback_odx table request response serviceName paramName
    with htable1
  have hget_hex : assocGet table1 hexKey = some cb := by
    rw [htable1]
    unfold register_callback_odx
    by_cases hkk : odxKey = hexKey
    · rw [← hodx, hkk]
      exact assocGet_assocSet_self _ hexKey cb
    · rw [← hodx]
      rw [assocGet_assocSet_ne _ odxKey hexKey cb hkk]
      exact assocGet_assocSet_self _ hexKey cb
  have hget_odx : assocGet table1 odxKey = some cb := by
    rw [htable1]
    unfold register_callback_odx
    rw [← hodx]
    exact assocGet_assocSet_self _ odxKey cb
  have hnodup1 : (table1.map Prod.fst).Nodup := by
    rw [htable1]
    unfold register_callback_odx
    exact keys_assocSet_nodup _ odxKey _
      (keys_assocSet_nodup _ hexKey _ hnodup)
  have hf : (fun p : String × UdsCallback => decide (p.2 ≠ cb)) (hexKey, cb)
      = false := by simp
  have hf' : (fun p : String × UdsCallback => decide (p.2 ≠ cb)) (odxKey, cb)
      = false := by simp
  refine ⟨hget_hex, hget_odx, ?_, ?_⟩
  · intro k hk1 hk2
    rw [htable1]
    unfold register_callback_odx
    rw [← hodx, assocGet_assocSet_ne _ odxKey k cb (fun h => hk2 h.symm),
      assocGet_assocSet_ne _ hexKey k cb (fun h => hk1 h.symm)]
  · intro key hkey
    have hfound : assocGet table1 key = some cb := by
      rcases hkey with h | h
      · rw [h]; exact hget_hex
      · rw [h]; exact hget_odx
    have hunreg : unregister_callback table1 key
        = table1.filter (fun p => decide (p.2 ≠ cb)) := by
      unfold unregister_callback
      rw [hfound]
    rw [hunreg]
    exact ⟨assocGet_filter_none table1 hexKey cb _ hnodup1 hget_hex hf,
      assocGet_filter_none table1 odxKey cb _ hnodup1 hget_odx hf'⟩

/-- Witness for C2: register the coded ReadDataByIdentifier callback on
an empty table and unregister through the hex key - both entries are
gone. -/
theorem C2_register_callback_dual_key_witness :
    assocGet (unregister_callback
        (register_callback_odx [] [0x22, 0xA4, 0x55] [0x62, 0xA4, 0x55]
          "ReadDataByIdentifier" "SoftwareVersion") "0x22A455")
      (requestHexKey [0x22, 0xA4, 0x55]) = none ∧
    assocGet (unregister_callback
        (register_callback_odx [] [0x22, 0xA4, 0x55] [0x62, 0xA4, 0x55]
          "ReadDataByIdentifier" "SoftwareVersion") "0x22A455")
      ("ReadDataByIdentifier" ++ "." ++ "SoftwareVersion") = none := by
  have h := (C2_register_callback_dual_key [] [0x22, 0xA4, 0x55]
    [0x62, 0xA4, 0x55] "ReadDataByIdentifier" "SoftwareVersion"
    (by simp)).2.2.2 "0x22A455" (Or.inl (by decide))
  exact h

/-! ## serialize_step_report (`serialize_step_report.py`) -/

/-- An argument passed to `serialize_step_report`: an `OrderedDict` step
report, or a value of any other runtime type. -/
inductive StepReportArg where
  | orderedDict (entries : List (String × String))
  | notOrderedDict (descr : String)
  deriving DecidableEq, Repr

/-- The `isinstance(step_report, OrderedDict)` test. -/
def isOrderedDict : StepReportArg → Bool
  | StepReportArg.orderedDict _ => true
  | StepReportArg.notOrderedDict _ => false

/-- The file system visible to `serialize_step_report`: file name to the
pickled step report stored under it. -/
abbrev FileSystem : Type := List (String × List (String × String))

/-- Embeds `serialize_step_report` (lines 5-17): if the argument is not
an `OrderedDict`, raise `TypeError` before the file is opened or
written; otherwise open the file and pickle the report into it.
Returns the outcome together with the file system after the call. -/
def serialize_step_report (stepReport : StepReportArg) (filename : String)
    (fs : FileSystem) : Except String Unit × FileSystem :=
  match stepReport with
  | StepReportArg.notOrderedDict _ =>
      (Except.error "step_report must be an OrderedDict", fs)
  | StepReportArg.orderedDict entries =>
      (Except.ok (), assocSet fs filename entries)

/-- C8: for every non-`OrderedDict` input, `serialize_step_report`
raises `TypeError` and the file system - in particular the state named
by `filename` - is unchanged; for every `OrderedDict` input the
`TypeError` branch is not taken. -/
theorem C8_serialize_step_report_type_guard (stepReport : StepReportArg)
    (filename : String) (fs : FileSystem) :
    (isOrderedDict stepReport = false →
      serialize_step_report stepReport filename fs
          = (Except.error "step_report must be an OrderedDict", fs) ∧
      assocGet (serialize_step_report stepReport filename fs).2 filename
          = assocGet fs filename) ∧
    (isOrderedDict stepReport = true →
      (serialize_step_report stepReport filename fs).1 = Except.ok ()) := by
  cases stepReport with
  | orderedDict entries =>
      refine ⟨?_, ?_⟩
      · intro h
        simp [isOrderedDict] at h
      · intro _
        rfl
  | notOrderedDict descr =>
      refine ⟨?_, ?_⟩
      · intro _
        exact ⟨rfl, rfl⟩
      · intro h
        simp [isOrderedDict] at h

/-- Witness for C8: an integer-like argument raises the type error and
leaves the file system unchanged. -/
theorem C8_serialize_step_report_type_guard_witness :
    serialize_step_report (StepReportArg.notOrderedDict "int") "report.pkl" []
        = (Except.error "step_report must be an OrderedDict", []) ∧
    assocGet (serialize_step_report (StepReportArg.notOrderedDict "int")
        "report.pkl" []).2 "report.pkl" = assocGet [] "report.pkl" :=
  (C8_serialize_step_report_type_guard (StepReportArg.notOrderedDict "int")
    "report.pkl" []).1 (by decide)

end Kiso
